import Mathlib

/-!
Shallow embedding of the wAI browser extension's semantic-retrieval and
reminder logic, translated from:
  - src/pages/background/embeddings.ts  (model loading, document/query embeddings)
  - src/pages/background/db.ts          (database init, custom migration runner)
  - src/pages/background/alarms.ts      (reminder alarm firing)
  - src/pages/newtab/Newtab.tsx         (note aggregation, substring filter,
                                         semantic search merge and ranking)

Asynchronous JS is modelled by explicit state passing; promise outcomes and
fallible calls are `Except` values supplied as inputs; JS numbers are ℚ and
timestamps are ℕ.
-/

/-- Error messages carried by rejected promises / thrown exceptions. -/
abbrev Err := String

/-! ## Embedding service (src/pages/background/embeddings.ts) -/

/-- The `pooling` option passed to the feature-extraction pipeline. -/
inductive Pooling
  | cls
  | mean
deriving DecidableEq

/-- Options object `{ pooling, normalize }` passed to the extractor. -/
structure EmbedOpts where
  pooling : Pooling
  normalize : Bool
deriving DecidableEq

/-- The loaded feature-extraction pipeline: text and options to a vector. -/
def FeatureExtractor : Type := String → EmbedOpts → List ℚ

/-- `QUERY_PROMPT` from embeddings.ts: the fixed retrieval-instruction text
prepended to queries. -/
def QUERY_PROMPT : String := "Represent this sentence for searching relevant passages: "

/-- The module-level mutable state of embeddings.ts: the `extractor` and
`extractorPromise` globals, plus a counter of how many model loads were
started (to express "the load is never retried"). -/
structure ExtractorState where
  extractor : Option FeatureExtractor
  extractorPromise : Option (Except Err FeatureExtractor)
  loadCount : Nat

/-- The state at module load: both globals are null. -/
def freshExtractorState : ExtractorState :=
  { extractor := none, extractorPromise := none, loadCount := 0 }

/-- `getExtractor()`: return the cached extractor if set; otherwise memoize
the load promise on first call and await it. `load` is the outcome the
`pipeline(...)` promise would settle with if a load is started now; the
`.then` handler stores the extractor only on success. -/
def getExtractor (load : Except Err FeatureExtractor) (s : ExtractorState) :
    ExtractorState × Except Err FeatureExtractor :=
  match s.extractor with
  | some e => (s, .ok e)
  | none =>
    match s.extractorPromise with
    | some p => (s, p)
    | none =>
      ({ extractor := match load with | .ok m => some m | .error _ => none,
         extractorPromise := some load,
         loadCount := s.loadCount + 1 }, load)

/-- `computeEmbedding(text)`: get the extractor, then run it with
`{ pooling: 'cls', normalize: true }`; a rejected extractor load rejects
this call with the same error. -/
def computeEmbedding (load : Except Err FeatureExtractor) (s : ExtractorState)
    (text : String) : ExtractorState × Except Err (List ℚ) :=
  match getExtractor load s with
  | (s1, .error e) => (s1, .error e)
  | (s1, .ok ext) => (s1, .ok (ext text { pooling := .cls, normalize := true }))

/-- `computeQueryEmbedding(query)`: get the extractor, then run it on
`QUERY_PROMPT + query` with `{ pooling: 'cls', normalize: true }`. -/
def computeQueryEmbedding (load : Except Err FeatureExtractor) (s : ExtractorState)
    (query : String) : ExtractorState × Except Err (List ℚ) :=
  match getExtractor load s with
  | (s1, .error e) => (s1, .error e)
  | (s1, .ok ext) => (s1, .ok (ext (QUERY_PROMPT ++ query) { pooling := .cls, normalize := true }))

/-! ## Database module state and `getDb` (src/pages/background/db.ts) -/

/-- An abstract handle standing for the drizzle database object. -/
abbrev DbHandle := Nat

/-- The module-level globals of db.ts: `db`, `dbError`, `dbInitialized`. -/
structure DbState where
  db : Option DbHandle
  dbError : Option Err
  dbInitDone : Bool
deriving DecidableEq

/-- State at module load. -/
def freshDbState : DbState := { db := none, dbError := none, dbInitDone := false }

/-- `initializeDatabase()`: early-return if already initialized, rethrow a
stored error, otherwise run the PGlite/migration/drizzle setup (its combined
outcome is `setup`): on success store the handle and mark initialized, on
failure store the error and rethrow. -/
def initDatabase (setup : Except Err DbHandle) (s : DbState) :
    DbState × Except Err Unit :=
  if s.dbInitDone then (s, .ok ())
  else
    match s.dbError with
    | some e => (s, .error e)
    | none =>
      match setup with
      | .ok h => ({ s with db := some h, dbInitDone := true }, .ok ())
      | .error e => ({ s with dbError := some e }, .error e)

/-- What `getDb` can throw: the stored init error, or the fallback
`"Database not initialized"` error. -/
inductive GetDbErr
  | initError (e : Err)
  | notInitDone
deriving DecidableEq

/-- `getDb()` after the awaited init promise has settled: throw the stored
`dbError` if any, else throw the fallback if `db` is null, else return it. -/
def getDb (s : DbState) : Except GetDbErr DbHandle :=
  match s.dbError with
  | some e => .error (.initError e)
  | none =>
    match s.db with
    | some d => .ok d
    | none => .error .notInitDone

/-! ## Custom migration runner (src/pages/background/db.ts, runMigrations) -/

/-- One entry of the `migrations` list: its journal timestamp
(`folderMillis`) and its statements (split on the breakpoint marker). -/
structure Migration where
  folderMillis : Nat
  sql : List String
deriving DecidableEq

/-- The statements a migration actually executes: each statement trimmed,
empty ones skipped (`if (trimmed) exec(trimmed)`). -/
def cleanStatements (m : Migration) : List String :=
  (m.sql.map String.trim).filter (fun s => !s.isEmpty)

/-- The persistent migration store: the `created_at` values recorded in the
`__drizzle_migrations` table, in insertion order. -/
structure MigStore where
  applied : List Nat
deriving DecidableEq

/-- One loop iteration of `runMigrations`: skip the migration if its
`folderMillis` is in the applied set computed at routine start (`snap`),
otherwise execute its cleaned statements and record its `folderMillis`. -/
def migStep (snap : List Nat) (acc : MigStore × List String) (m : Migration) :
    MigStore × List String :=
  if snap.contains m.folderMillis then acc
  else ({ applied := acc.1.applied ++ [m.folderMillis] }, acc.2 ++ cleanStatements m)

/-- `runMigrations`: read the applied set once, then iterate the migration
list; returns the updated store and the statements executed this run. -/
def runMigrations (ms : List Migration) (s : MigStore) : MigStore × List String :=
  ms.foldl (migStep s.applied) (s, [])

/-! ## Reminder alarm firing (src/pages/background/alarms.ts) -/

/-- A row of the `notes` table as the alarms module reads it. -/
structure NoteRow where
  id : Nat
  name : String
  note : Option String
  createdAt : Nat
deriving DecidableEq

/-- A row of the `reminders` table. -/
structure ReminderRow where
  id : Nat
  noteId : Nat
  remindAt : Nat
  reminded : Option Nat
  createdAt : Nat
deriving DecidableEq

/-- The database rows plus the observable side effects of the alarm handler:
every `chrome.notifications.create` call (id and title) and every UPDATE
that wrote the `reminded` column (the reminder id written). -/
structure AlarmState where
  notes : List NoteRow
  reminders : List ReminderRow
  notifications : List (String × String)
  remindedWrites : List Nat
deriving DecidableEq

/-- `ALARM_PREFIX` from alarms.ts, the marker at the start of reminder alarm
names. -/
def alarmNameStart : String := "reminder_"

/-- Is `pre` a leading segment of `l`? (character-list model of JS
`String.prototype.startsWith`). -/
def leadsList : List Char → List Char → Bool
  | [], _ => true
  | _ :: _, [] => false
  | a :: as, b :: bs => a == b && leadsList as bs

/-- `parseInt(s, 10)`: the leading decimal digits, NaN (none) if there are
none. -/
def parseReminderId (s : List Char) : Option Nat :=
  let ds := s.takeWhile Char.isDigit
  if ds.isEmpty then none
  else some (ds.foldl (fun n c => n * 10 + (c.toNat - 48)) 0)

/-- `handleAlarmFired(alarm)`: ignore non-reminder alarms; parse the id
(after `replace(ALARM_PREFIX, '')` strips the leading marker); select the
reminder joined with its note (first row); if found, set
`reminded = new Date()` for that id and show a notification. There is no
check that `reminded` is still null. -/
def handleAlarmFired (now : Nat) (alarmName : String) (s : AlarmState) : AlarmState :=
  if !leadsList alarmNameStart.toList alarmName.toList then s
  else
    match parseReminderId (alarmName.toList.drop alarmNameStart.toList.length) with
    | none => s
    | some rid =>
      match s.reminders.find? (fun r => r.id == rid) with
      | none => s
      | some r =>
        match s.notes.find? (fun n => n.id == r.noteId) with
        | none => s
        | some note =>
          { s with
            reminders := s.reminders.map (fun x =>
              if x.id == rid then { x with reminded := some now } else x),
            remindedWrites := s.remindedWrites ++ [rid],
            notifications := s.notifications ++
              [("notification_" ++ toString rid, "Reminder: " ++ note.name)] }

/-! ## Note aggregation and search (src/pages/newtab/Newtab.tsx) -/

/-- A row of the `contents` table / the `ContentItem` interface. -/
structure ContentItem where
  id : Nat
  noteId : Nat
  text : String
  url : String
  favIconUrl : Option String
  createdAt : Nat
deriving DecidableEq

/-- The aggregated `Note` view object: a notes row with its contents, its
(optional) reminder and the optional semantic-search similarity. -/
structure Note where
  id : Nat
  name : String
  note : Option String
  createdAt : Nat
  contents : List ContentItem
  reminder : Option ReminderRow
  similarity : Option ℚ
deriving DecidableEq

/-- `fetchNotes`: combine the fetched rows (`ns` is the notes select, which
orders by `createdAt`) with their contents (`filter`) and reminder
(`find(...) || null`). -/
def fetchNotes (ns : List NoteRow) (cs : List ContentItem) (rs : List ReminderRow) :
    List Note :=
  ns.map (fun n =>
    { id := n.id, name := n.name, note := n.note, createdAt := n.createdAt,
      contents := cs.filter (fun c => c.noteId == n.id),
      reminder := rs.find? (fun r => r.noteId == n.id),
      similarity := none })

/-- JS `hay.includes(needle)` on character lists: some suffix of `hay`
starts with `needle`. -/
def containsSeq (needle : List Char) : List Char → Bool
  | [] => needle.isEmpty
  | c :: t => leadsList needle (c :: t) || containsSeq needle t

/-- JS `toLowerCase()` on character lists (ASCII-faithful model). -/
def lowerChars (cs : List Char) : List Char := cs.map Char.toLower

/-- Does `s.trim()` give the empty string? (`!s.trim()` in JS: every
character is whitespace). -/
def isBlank (s : String) : Bool := s.toList.all Char.isWhitespace

/-- The substring-mode predicate: `note.name.toLowerCase().includes(query)`
with `query = searchQuery.toLowerCase()`. -/
def nameMatches (searchQuery : String) (n : Note) : Bool :=
  containsSeq (lowerChars searchQuery.toList) (lowerChars n.name.toList)

/-- `filteredNotes`: semantic results when semantic mode is on and results
are non-null; otherwise the full list for a blank query, else the
case-insensitive name filter. -/
def filteredNotes (isSemanticSearch : Bool) (semanticSearchResults : Option (List Note))
    (notes : List Note) (searchQuery : String) : List Note :=
  match isSemanticSearch, semanticSearchResults with
  | true, some rs => rs
  | _, _ =>
    if isBlank searchQuery then notes
    else notes.filter (nameMatches searchQuery)

/-- `Map.prototype.set` on the `noteSimilarities` map, modelled as an
association list in key-insertion order. -/
def setSim : List (Nat × ℚ) → Nat → ℚ → List (Nat × ℚ)
  | [], i, v => [(i, v)]
  | (j, w) :: t, i, v => if j == i then (i, v) :: t else (j, w) :: setSim t i v

/-- `Map.prototype.get`. -/
def getSim (m : List (Nat × ℚ)) (i : Nat) : Option ℚ :=
  (m.find? (fun p => p.1 == i)).map Prod.snd

/-- Seeding loop: `noteSimilarities.set(row.id, row.similarity)` for each
note-search row. -/
def seedSims (noteRows : List (Nat × ℚ)) : List (Nat × ℚ) :=
  noteRows.foldl (fun m r => setSim m r.1 r.2) []

/-- Content loop: `existing = map.get(noteId) || 0;
map.set(noteId, Math.max(existing, similarity))` for each content-search
row (`|| 0` on a number is `Option.getD 0` here). -/
def updateSims (contentRows : List (Nat × ℚ)) (m : List (Nat × ℚ)) : List (Nat × ℚ) :=
  contentRows.foldl (fun acc r => setSim acc r.1 (max ((getSim acc r.1).getD 0) r.2)) m

/-- The merged `noteId -> similarity` map built by `performSemanticSearch`. -/
def mergedSims (noteRows contentRows : List (Nat × ℚ)) : List (Nat × ℚ) :=
  updateSims contentRows (seedSims noteRows)

/-- The scores of the content rows matching note id `i`, in row order. -/
def contentScores (contentRows : List (Nat × ℚ)) (i : Nat) : List ℚ :=
  (contentRows.filter (fun p => p.1 == i)).map Prod.snd

/-- `Set.prototype.add` on `noteIds`: insertion order, first occurrence
kept. -/
def addId (ids : List Nat) (i : Nat) : List Nat :=
  if ids.contains i then ids else ids ++ [i]

/-- The `noteIds` set after both loops: note-search ids then content-search
note ids, deduplicated in first-encounter order. -/
def noteIdsList (noteRows contentRows : List (Nat × ℚ)) : List Nat :=
  (noteRows.map Prod.fst ++ contentRows.map Prod.fst).foldl addId []

/-- The sort key `(x.similarity || 0)` used by the ranking comparator. -/
def simKey (n : Note) : ℚ := n.similarity.getD 0

/-- `matchingNotes` before sorting: for each id in `noteIds`, look the note
up in the aggregated state (skip ids with no note) and attach
`similarity = map.get(id) || 0`. -/
def preRank (notes : List Note) (noteRows contentRows : List (Nat × ℚ)) : List Note :=
  (noteIdsList noteRows contentRows).filterMap (fun i =>
    (notes.find? (fun n => n.id == i)).map (fun n =>
      { n with similarity := some ((getSim (mergedSims noteRows contentRows) i).getD 0) }))

/-- Insert into a descending-sorted list, after every element with a key at
least as large: one step of the stable sort
`matchingNotes.sort((a, b) => (b.similarity || 0) - (a.similarity || 0))`. -/
def insertDesc (x : Note) : List Note → List Note
  | [] => [x]
  | y :: ys => if simKey x ≤ simKey y then y :: insertDesc x ys else x :: y :: ys

/-- The stable descending sort by `simKey` (JS `Array.prototype.sort` is
stable). -/
def sortDesc (l : List Note) : List Note :=
  l.foldl (fun acc x => insertDesc x acc) []

/-- The ranked semantic result list. -/
def rankNotes (notes : List Note) (noteRows contentRows : List (Nat × ℚ)) : List Note :=
  sortDesc (preRank notes noteRows contentRows)

/-- The outcomes of the awaited calls inside `performSemanticSearch` for one
query: the query-embedding message round trip and the two vector searches
(each row reduced to the fields the merge reads: note id and similarity). -/
structure SearchEnv where
  queryEmbedding : Except Err (List ℚ)
  noteRows : Except Err (List (Nat × ℚ))
  contentRows : Except Err (List (Nat × ℚ))

/-- Does an `Except` model a rejected promise? -/
def isErr {α : Type _} : Except Err α → Bool
  | .error _ => true
  | .ok _ => false

/-- `performSemanticSearch(query)`: a blank query resets the results to
null; any throw inside the try block yields the empty result list (the
catch branch); otherwise merge, look up and rank. `none` models
`setSemanticSearchResults(null)`, `some l` models setting the list `l`. -/
def performSemanticSearch (env : SearchEnv) (notes : List Note) (query : String) :
    Option (List Note) :=
  if isBlank query then none
  else
    match env.queryEmbedding with
    | .error _ => some []
    | .ok _ =>
      match env.noteRows with
      | .error _ => some []
      | .ok nr =>
        match env.contentRows with
        | .error _ => some []
        | .ok cr => some (rankNotes notes nr cr)

/-! ## Sample data used by concrete counterexamples and witnesses -/

/-- A notes-table row used in concrete alarm scenarios. -/
def groceriesRow : NoteRow := { id := 1, name := "groceries", note := none, createdAt := 5 }

/-- A pending reminder for note 1. -/
def pendingReminder : ReminderRow :=
  { id := 1, noteId := 1, remindAt := 100, reminded := none, createdAt := 50 }

/-- Alarm-module state before any alarm fires. -/
def alarmS0 : AlarmState :=
  { notes := [groceriesRow], reminders := [pendingReminder],
    notifications := [], remindedWrites := [] }

/-- The state after the alarm for reminder 1 is delivered twice (at t=200
and t=300). -/
def alarmS2 : AlarmState :=
  handleAlarmFired 300 "reminder_1" (handleAlarmFired 200 "reminder_1" alarmS0)

/-- An aggregated note created at time 10. -/
def noteOne : Note :=
  { id := 1, name := "alpha", note := none, createdAt := 10, contents := [],
    reminder := none, similarity := none }

/-- An aggregated note created later, at time 20. -/
def noteTwo : Note :=
  { id := 2, name := "beta", note := none, createdAt := 20, contents := [],
    reminder := none, similarity := none }

/-- A reminder row for note 1 created at time 10. -/
def remEarly : ReminderRow := { id := 1, noteId := 1, remindAt := 9, reminded := none, createdAt := 10 }

/-- A second reminder row for the same note 1, created later (time 20). -/
def remLate : ReminderRow := { id := 2, noteId := 1, remindAt := 9, reminded := none, createdAt := 20 }

/-- The notes row that `remEarly` and `remLate` both reference. -/
def plainRow : NoteRow := { id := 1, name := "a", note := none, createdAt := 5 }

/-- The aggregated view of `plainRow` that `fetchNotes` produces from the
two anomalous reminder rows. -/
def aggPlain : Note :=
  { id := 1, name := "a", note := none, createdAt := 5, contents := [],
    reminder := some remEarly, similarity := none }

/-! ## Helper lemmas -/

-- `find?` returns the first element the filter keeps.
theorem find_eq_head_filter {α : Type _} (p : α → Bool) (l : List α) :
    l.find? p = (l.filter p).head? := by
  induction l with
  | nil => rfl
  | cons a t ih =>
    cases h : p a
    · simp only [List.find?, List.filter, h, ih]
    · simp only [List.find?, List.filter, h, List.head?]

-- Map get after set: the set key reads back, others are unchanged.
theorem getSim_setSim (i j : Nat) (v : ℚ) :
    ∀ m : List (Nat × ℚ), getSim (setSim m i v) j = if j = i then some v else getSim m j := by
  intro m
  induction m with
  | nil =>
    simp only [setSim, getSim, List.find?]
    by_cases h : i = j
    · subst h; simp
    · have hb : (i == j) = false := by simp [h]
      rw [if_neg (fun hh => h hh.symm)]
      simp [hb]
  | cons hd t ih =>
    obtain ⟨k, w⟩ := hd
    simp only [setSim]
    by_cases hk : k = i
    · subst hk
      rw [if_pos (by simp : ((k == k) = true))]
      simp only [getSim, List.find?]
      by_cases hj : k = j
      · subst hj; simp
      · have hb : (k == j) = false := by simp [hj]
        simp only [hb]
        rw [if_neg (fun hh => hj hh.symm)]
    · rw [if_neg (by simp [hk] : ¬((k == i) = true))]
      simp only [getSim, List.find?]
      by_cases hj : k = j
      · subst hj
        have hb : (k == k) = true := by simp
        simp only [hb]
        rw [if_neg hk]
      · have hb : (k == j) = false := by simp [hj]
        simp only [hb]
        have hgs := ih
        simp only [getSim] at hgs
        exact hgs

-- Folding `set` over rows whose ids avoid `i` leaves the entry for `i` alone.
theorem getSim_foldl_setSim_not_mem (i : Nat) :
    ∀ (nr : List (Nat × ℚ)) (m : List (Nat × ℚ)), i ∉ nr.map Prod.fst →
      getSim (nr.foldl (fun acc r => setSim acc r.1 r.2) m) i = getSim m i := by
  intro nr
  induction nr with
  | nil => intro m _; rfl
  | cons r t ih =>
    intro m hi
    have h1 : i ∉ t.map Prod.fst := fun h => hi (by simp [h])
    have h2 : r.1 ≠ i := fun h => hi (by simp [← h])
    simp only [List.foldl_cons]
    rw [ih _ h1, getSim_setSim, if_neg (fun h => h2 h.symm)]

-- With pairwise-distinct row ids, the seeded map holds each row's score.
theorem getSim_foldl_setSim_mem (i : Nat) (s : ℚ) :
    ∀ (nr : List (Nat × ℚ)) (m : List (Nat × ℚ)),
      (nr.map Prod.fst).Nodup → (i, s) ∈ nr →
      getSim (nr.foldl (fun acc r => setSim acc r.1 r.2) m) i = some s := by
  intro nr
  induction nr with
  | nil => intro m _ h; cases h
  | cons r t ih =>
    intro m hnd hmem
    simp only [List.map_cons, List.nodup_cons] at hnd
    simp only [List.foldl_cons]
    rcases List.mem_cons.mp hmem with heq | ht
    · have hfst : r.1 = i := by rw [← heq]
      have hsnd : r.2 = s := by rw [← heq]
      have hnt : i ∉ t.map Prod.fst := by rw [← hfst]; exact hnd.1
      rw [getSim_foldl_setSim_not_mem i t _ hnt, getSim_setSim, hfst, if_pos rfl, hsnd]
    · exact ih _ hnd.2 ht

-- The content loop: per id, the map ends at the running max of `getD 0` of
-- the seeded entry and the matching content scores (entry untouched when no
-- content row matches).
theorem getSim_updateSims (i : Nat) :
    ∀ (cr : List (Nat × ℚ)) (m : List (Nat × ℚ)),
      getSim (updateSims cr m) i =
        if contentScores cr i = [] then getSim m i
        else some ((contentScores cr i).foldl max ((getSim m i).getD 0)) := by
  intro cr
  induction cr with
  | nil => intro m; simp [updateSims, contentScores]
  | cons r t ih =>
    intro m
    have hstep : updateSims (r :: t) m
        = updateSims t (setSim m r.1 (max ((getSim m r.1).getD 0) r.2)) := rfl
    rw [hstep]
    by_cases hr : r.1 = i
    · have hcs : contentScores (r :: t) i = r.2 :: contentScores t i := by
        simp [contentScores, List.filter_cons, hr]
      have hget : getSim (setSim m r.1 (max ((getSim m r.1).getD 0) r.2)) i
          = some (max ((getSim m i).getD 0) r.2) := by
        rw [getSim_setSim, if_pos hr.symm, hr]
      rw [ih, hget, hcs]
      by_cases h0 : contentScores t i = []
      · simp [h0]
      · simp only [h0, if_neg h0]
        have : (r.2 :: contentScores t i) ≠ [] := by simp
        rw [if_neg this]
        simp [List.foldl_cons]
    · have hcs : contentScores (r :: t) i = contentScores t i := by
        simp [contentScores, List.filter_cons, hr]
      have hget : getSim (setSim m r.1 (max ((getSim m r.1).getD 0) r.2)) i = getSim m i := by
        rw [getSim_setSim, if_neg (fun h => hr h.symm)]
      rw [ih, hget, hcs]

-- The migration loop with applied-set snapshot `snap`: it executes exactly
-- the cleaned statements of the migrations not in `snap` and appends their
-- identifiers to the store.
theorem runMigrations_foldl (snap : List Nat) :
    ∀ (ms : List Migration) (st : MigStore) (log : List String),
      ms.foldl (migStep snap) (st, log) =
        ({ applied := st.applied
              ++ (ms.filter (fun m => !snap.contains m.folderMillis)).map Migration.folderMillis },
          log ++ (ms.filter (fun m => !snap.contains m.folderMillis)).flatMap cleanStatements) := by
  intro ms
  induction ms with
  | nil => intro st log; simp
  | cons m t ih =>
    intro st log
    simp only [List.foldl_cons]
    by_cases h : snap.contains m.folderMillis
    · have hm : m.folderMillis ∈ snap := by simpa using h
      have hstep : migStep snap (st, log) m = (st, log) := by
        unfold migStep; rw [if_pos h]
      rw [hstep, ih, List.filter_cons]
      simp [hm]
    · have hm : m.folderMillis ∉ snap := by simpa using h
      have hstep : migStep snap (st, log) m
          = ({ applied := st.applied ++ [m.folderMillis] }, log ++ cleanStatements m) := by
        unfold migStep; rw [if_neg h]
      rw [hstep, ih, List.filter_cons]
      simp [hm, List.append_assoc]

-- Membership through one insertion step of the ranking sort.
theorem mem_insertDesc (x z : Note) :
    ∀ l : List Note, z ∈ insertDesc x l ↔ z = x ∨ z ∈ l := by
  intro l
  induction l with
  | nil => simp [insertDesc]
  | cons y ys ih =>
    simp only [insertDesc]
    by_cases h : simKey x ≤ simKey y
    · rw [if_pos h]
      simp only [List.mem_cons, ih]
      tauto
    · rw [if_neg h]
      simp

-- Inserting keeps the list sorted in non-increasing key order.
theorem pairwise_insertDesc (x : Note) :
    ∀ l : List Note, l.Pairwise (fun a b => simKey b ≤ simKey a) →
      (insertDesc x l).Pairwise (fun a b => simKey b ≤ simKey a) := by
  intro l
  induction l with
  | nil => intro _; simp [insertDesc]
  | cons y ys ih =>
    intro hp
    rw [List.pairwise_cons] at hp
    obtain ⟨hy, hys⟩ := hp
    simp only [insertDesc]
    by_cases h : simKey x ≤ simKey y
    · rw [if_pos h]
      rw [List.pairwise_cons]
      refine ⟨fun z hz => ?_, ih hys⟩
      rcases (mem_insertDesc x z ys).mp hz with rfl | hz2
      · exact h
      · exact hy z hz2
    · rw [if_neg h]
      have hyx : simKey y ≤ simKey x := le_of_lt (lt_of_not_le h)
      rw [List.pairwise_cons]
      refine ⟨fun z hz => ?_, List.pairwise_cons.mpr ⟨hy, hys⟩⟩
      rcases List.mem_cons.mp hz with rfl | hz2
      · exact hyx
      · exact le_trans (hy z hz2) hyx

-- The whole insertion fold keeps the accumulator sorted.
theorem pairwise_foldl_insertDesc :
    ∀ (l acc : List Note), acc.Pairwise (fun a b => simKey b ≤ simKey a) →
      (l.foldl (fun acc x => insertDesc x acc) acc).Pairwise (fun a b => simKey b ≤ simKey a) := by
  intro l
  induction l with
  | nil => intro acc h; exact h
  | cons x t ih => intro acc h; exact ih _ (pairwise_insertDesc x acc h)

-- Inserting `x` into a sorted list puts it after all equal keys: per key,
-- the filter just appends `x` at the end.
theorem filter_insertDesc (k : ℚ) (x : Note) :
    ∀ l : List Note, l.Pairwise (fun a b => simKey b ≤ simKey a) →
      (insertDesc x l).filter (fun n => simKey n == k)
        = if simKey x == k
          then l.filter (fun n => simKey n == k) ++ [x]
          else l.filter (fun n => simKey n == k) := by
  intro l
  induction l with
  | nil =>
    intro _
    by_cases h : simKey x == k <;> simp [insertDesc, List.filter, h]
  | cons y ys ih =>
    intro hp
    rw [List.pairwise_cons] at hp
    obtain ⟨hy, hys⟩ := hp
    simp only [insertDesc]
    by_cases hle : simKey x ≤ simKey y
    · rw [if_pos hle, List.filter_cons, List.filter_cons, ih hys]
      by_cases hyk : simKey y == k
      · simp only [hyk, if_pos hyk]
        by_cases hxk : simKey x == k <;> simp [hxk]
      · simp only [hyk, Bool.false_eq_true, if_false]
    · rw [if_neg hle]
      have hlt : simKey y < simKey x := lt_of_not_le hle
      by_cases hxk : simKey x == k
      · have hxk2 : simKey x = k := by simpa using hxk
        have hfil : (y :: ys).filter (fun n => simKey n == k) = [] := by
          rw [List.filter_eq_nil_iff]
          intro a ha
          have hak : simKey a < simKey x := by
            rcases List.mem_cons.mp ha with rfl | ha2
            · exact hlt
            · exact lt_of_le_of_lt (hy a ha2) hlt
          rw [hxk2] at hak
          simp [ne_of_lt hak]
        rw [List.filter_cons, hfil]
        simp [hxk]
      · rw [List.filter_cons]
        simp [hxk]

-- Per key, sorting filters the same sublist as the unsorted input: the sort
-- is stable with respect to the pre-sort order.
theorem filter_foldl_insertDesc (k : ℚ) :
    ∀ (l acc : List Note), acc.Pairwise (fun a b => simKey b ≤ simKey a) →
      (l.foldl (fun acc x => insertDesc x acc) acc).filter (fun n => simKey n == k)
        = acc.filter (fun n => simKey n == k) ++ l.filter (fun n => simKey n == k) := by
  intro l
  induction l with
  | nil => intro acc h; simp
  | cons x t ih =>
    intro acc h
    simp only [List.foldl_cons]
    rw [ih _ (pairwise_insertDesc x acc h), filter_insertDesc k x acc h, List.filter_cons]
    by_cases hxk : simKey x == k <;> simp [hxk]

/-! ## Claim theorems -/

/-- C1: the code violates exactly-once firing. Delivering the alarm for
reminder 1 twice emits two notifications, executes the `reminded` UPDATE
twice and overwrites the first fired timestamp (200) with the second (300):
`handleAlarmFired` never checks that `reminded` is still null. -/
theorem handleAlarmFired_double_fire :
    alarmS2.notifications.length = 2 ∧ alarmS2.remindedWrites = [1, 1]
      ∧ alarmS2.reminders = [{ pendingReminder with reminded := some 300 }] := by decide

/-- C2 counterexample: a note reached only via a content row does not carry
that row's score when it is negative: the missing note-level entry defaults
to 0 inside the max, so the merged similarity is 0, both in the merged map
and in the final search result. -/
theorem mergedSims_content_only_negative :
    getSim (mergedSims [] [(1, (-1 : ℚ))]) 1 = some 0
    ∧ performSemanticSearch
        { queryEmbedding := .ok [], noteRows := .ok [], contentRows := .ok [(1, (-1 : ℚ))] }
        [noteOne] "q"
        = some [{ noteOne with similarity := some 0 }]
    ∧ ¬ getSim (mergedSims [] [(1, (-1 : ℚ))]) 1 = some (-1 : ℚ) := by decide

/-- C2 (amended): the merged similarity map is seeded from the note-level
search rows and updated per matching content row via max, where a missing
entry counts as 0: a note with note-level score s ends at the max-fold of
its content scores over s (0.3 with a 0.8 content row gives 0.8), and a
note present only in the content rows ends at the max-fold of its content
scores over 0 (so a negative content-only score surfaces as 0). -/
theorem mergedSims_merge_rule (nr cr : List (Nat × ℚ)) (i : Nat) (s : ℚ)
    (hnd : (nr.map Prod.fst).Nodup) :
    ((i, s) ∈ nr → getSim (mergedSims nr cr) i = some ((contentScores cr i).foldl max s))
    ∧ (i ∉ nr.map Prod.fst → i ∈ cr.map Prod.fst →
        getSim (mergedSims nr cr) i = some ((contentScores cr i).foldl max 0)) := by
  constructor
  · intro hmem
    have hseed : getSim (seedSims nr) i = some s :=
      getSim_foldl_setSim_mem i s nr [] hnd hmem
    simp only [mergedSims]
    rw [getSim_updateSims, hseed]
    by_cases h : contentScores cr i = []
    · simp [h]
    · simp [h]
  · intro hnot hin
    have hseed : getSim (seedSims nr) i = none := by
      rw [seedSims, getSim_foldl_setSim_not_mem i nr [] hnot]
      rfl
    have hne : ¬ contentScores cr i = [] := by
      intro h0
      obtain ⟨p, hp, hfst⟩ := List.mem_map.mp hin
      simp only [contentScores, List.map_eq_nil_iff, List.filter_eq_nil_iff] at h0
      exact h0 p hp (by simp [hfst])
    simp only [mergedSims]
    rw [getSim_updateSims, hseed]
    simp [hne]

/-- C2 witness: note-level score 0 for note 1 and one matching content row
scoring 1 merge to 1 (the max). -/
theorem mergedSims_merge_rule_witness :
    getSim (mergedSims [(1, (0 : ℚ))] [(1, (1 : ℚ))]) 1 = some 1 :=
  ((mergedSims_merge_rule [(1, (0 : ℚ))] [(1, (1 : ℚ))] 1 0 (by decide)).1
    (by decide)).trans (by decide)

/-- C3 counterexample: in semantic mode a blank query does not yield an
empty result set shown to the user: `performSemanticSearch` resets the
results to null, and the view then shows the full unfiltered list. -/
theorem semantic_blank_query_shows_full_list :
    performSemanticSearch
        { queryEmbedding := .ok [], noteRows := .ok [], contentRows := .ok [] }
        [noteOne] "" = none
    ∧ filteredNotes true none [noteOne] "" = [noteOne]
    ∧ filteredNotes true none [noteOne] "" ≠ [] := by decide

/-- C3 (amended): for an empty or whitespace-only query, semantic mode
clears the semantic results to null and the user is shown the full
unfiltered list — the same full list substring mode shows for an empty
query. -/
theorem blank_query_full_list (env : SearchEnv) (notes : List Note) (q : String)
    (hq : isBlank q = true) :
    performSemanticSearch env notes q = none
    ∧ ∀ mode : Bool, filteredNotes mode none notes q = notes := by
  refine ⟨?_, ?_⟩
  · simp [performSemanticSearch, hq]
  · intro mode
    cases mode <;> simp [filteredNotes, hq]

/-- C3 witness: a whitespace-only query in either mode shows the full
list, and semantic search resets its results to null. -/
theorem blank_query_full_list_witness :
    performSemanticSearch
        { queryEmbedding := .ok [], noteRows := .ok [], contentRows := .ok [] }
        [noteTwo] " " = none
    ∧ filteredNotes true none [noteTwo] " " = [noteTwo]
    ∧ filteredNotes false none [noteTwo] " " = [noteTwo] := by
  have h := blank_query_full_list
    { queryEmbedding := .ok [], noteRows := .ok [], contentRows := .ok [] }
    [noteTwo] " " (by decide)
  exact ⟨h.1, h.2 true, h.2 false⟩

/-- C4 counterexample: two notes tie at merged similarity 1 but the ranked
order follows the note-search row order (note 2 first), not creation order
(note 1 was created first, at time 10 versus 20). -/
theorem rank_tie_not_creation_order :
    performSemanticSearch
        { queryEmbedding := .ok [], noteRows := .ok [(2, (1 : ℚ)), (1, (1 : ℚ))],
          contentRows := .ok [] }
        [noteOne, noteTwo] "q"
      = some [{ noteTwo with similarity := some 1 }, { noteOne with similarity := some 1 }]
    ∧ noteOne.createdAt < noteTwo.createdAt := by decide

/-- C4 (amended): the ranked list is sorted in non-increasing merged
similarity, and the sort is stable over the pre-sort list (ids in
first-encounter order: note-search rows then content rows): per similarity
value the ranked list keeps exactly the pre-sort sublist, so
equal-similarity notes keep their first-encounter order, not creation
order. -/
theorem rankNotes_sorted_stable (notes : List Note) (nr cr : List (Nat × ℚ)) (k : ℚ) :
    (rankNotes notes nr cr).Pairwise (fun a b => simKey b ≤ simKey a)
    ∧ (rankNotes notes nr cr).filter (fun n => simKey n == k)
        = (preRank notes nr cr).filter (fun n => simKey n == k) := by
  constructor
  · exact pairwise_foldl_insertDesc (preRank notes nr cr) [] (by simp)
  · have h := filter_foldl_insertDesc k (preRank notes nr cr) [] (by simp)
    simpa [rankNotes, sortDesc] using h

/-- C5: the migration routine skips exactly the migrations whose
folderMillis is already recorded at routine start, so the first run
executes precisely the pending migrations' cleaned statements (once each,
in order), and running the routine again immediately afterwards executes no
statements and leaves the store unchanged. -/
theorem runMigrations_idempotent (ms : List Migration) (s : MigStore) :
    (runMigrations ms s).2
        = (ms.filter (fun m => !s.applied.contains m.folderMillis)).flatMap cleanStatements
    ∧ (runMigrations ms (runMigrations ms s).1).2 = []
    ∧ (runMigrations ms (runMigrations ms s).1).1 = (runMigrations ms s).1 := by
  have h1 := runMigrations_foldl s.applied ms s []
  have hs1 : (runMigrations ms s).1
      = { applied := s.applied
            ++ (ms.filter (fun m => !s.applied.contains m.folderMillis)).map Migration.folderMillis } := by
    rw [runMigrations, h1]
  have hfil : ms.filter (fun m =>
      !((s.applied
          ++ (ms.filter (fun m => !s.applied.contains m.folderMillis)).map Migration.folderMillis).contains
        m.folderMillis)) = [] := by
    rw [List.filter_eq_nil_iff]
    intro m hm
    intro hcon
    have hx : (s.applied
        ++ (ms.filter (fun m => !s.applied.contains m.folderMillis)).map Migration.folderMillis).contains
          m.folderMillis = true := by
      by_cases hc : s.applied.contains m.folderMillis
      · have hmem : m.folderMillis ∈ s.applied := by simpa using hc
        have hmem2 : m.folderMillis ∈ s.applied
            ++ (ms.filter (fun m => !s.applied.contains m.folderMillis)).map Migration.folderMillis :=
          List.mem_append.mpr (Or.inl hmem)
        simpa using hmem2
      · have hcf : s.applied.contains m.folderMillis = false := by
          revert hc; cases s.applied.contains m.folderMillis <;> simp
        have hnm : m.folderMillis ∉ s.applied := by simpa using hcf
        have hmem : m.folderMillis
            ∈ (ms.filter (fun m => !s.applied.contains m.folderMillis)).map Migration.folderMillis :=
          List.mem_map.mpr ⟨m, List.mem_filter.mpr ⟨hm, by rw [hcf]; rfl⟩, rfl⟩
        have hmem2 : m.folderMillis ∈ s.applied
            ++ (ms.filter (fun m => !s.applied.contains m.folderMillis)).map Migration.folderMillis :=
          List.mem_append.mpr (Or.inr hmem)
        simpa using hmem2
    rw [hx] at hcon
    exact absurd hcon (by decide)
  have h2 := runMigrations_foldl
    (s.applied ++ (ms.filter (fun m => !s.applied.contains m.folderMillis)).map Migration.folderMillis)
    ms
    { applied := s.applied
        ++ (ms.filter (fun m => !s.applied.contains m.folderMillis)).map Migration.folderMillis }
    []
  refine ⟨?_, ?_, ?_⟩
  · rw [runMigrations, h1]
    rfl
  · rw [runMigrations, hs1]
    show (ms.foldl (migStep (s.applied
        ++ (ms.filter (fun m => !s.applied.contains m.folderMillis)).map Migration.folderMillis))
        ({ applied := s.applied
            ++ (ms.filter (fun m => !s.applied.contains m.folderMillis)).map Migration.folderMillis },
          [])).2 = []
    rw [h2, hfil]
    rfl
  · rw [runMigrations, hs1]
    show (ms.foldl (migStep (s.applied
        ++ (ms.filter (fun m => !s.applied.contains m.folderMillis)).map Migration.folderMillis))
        ({ applied := s.applied
            ++ (ms.filter (fun m => !s.applied.contains m.folderMillis)).map Migration.folderMillis },
          [])).1
      = { applied := s.applied
            ++ (ms.filter (fun m => !s.applied.contains m.folderMillis)).map Migration.folderMillis }
    rw [h2, hfil]
    simp

/-- C6: for a non-blank query, if the query-embedding round trip or either
vector similarity search rejects, the search resolves with the empty result
list (the catch branch) instead of propagating the error. -/
theorem semantic_search_fail_soft (env : SearchEnv) (notes : List Note) (q : String)
    (hq : isBlank q = false)
    (hfail : isErr env.queryEmbedding = true ∨ isErr env.noteRows = true
      ∨ isErr env.contentRows = true) :
    performSemanticSearch env notes q = some [] := by
  obtain ⟨qe, nrr, crr⟩ := env
  cases qe with
  | error e => simp [performSemanticSearch, hq]
  | ok v =>
    cases nrr with
    | error e => simp [performSemanticSearch, hq]
    | ok nrv =>
      cases crr with
      | error e => simp [performSemanticSearch, hq]
      | ok crv =>
        exfalso
        simp [isErr] at hfail

/-- C6 witness: with a failing embedding call, the query "pasta" resolves
to the empty result list. -/
theorem semantic_search_fail_soft_witness :
    performSemanticSearch
        { queryEmbedding := .error "model load failed", noteRows := .ok [], contentRows := .ok [] }
        [noteOne] "pasta" = some [] :=
  semantic_search_fail_soft
    { queryEmbedding := .error "model load failed", noteRows := .ok [], contentRows := .ok [] }
    [noteOne] "pasta" (by decide) (Or.inl rfl)

/-- C7: for every query, the query embedding equals the document embedding
of the fixed instruction text concatenated with the query — same extractor,
same cls-pooling normalized options, same resulting state. -/
theorem computeQueryEmbedding_prompted (load : Except Err FeatureExtractor)
    (s : ExtractorState) (q : String) :
    computeQueryEmbedding load s q = computeEmbedding load s (QUERY_PROMPT ++ q) := rfl

/-- C9: if the first model load rejects, the rejected promise stays
memoized: the first call returns the error and counts one started load,
every later `getExtractor` call returns the same error without starting a
new load (state unchanged), and embedding and query-embedding calls reject
with that same error. -/
theorem extractor_load_error_cached (e : Err) (later : Except Err FeatureExtractor)
    (text q : String) :
    (getExtractor (.error e) freshExtractorState).2 = .error e
    ∧ (getExtractor (.error e) freshExtractorState).1.loadCount = 1
    ∧ getExtractor later (getExtractor (.error e) freshExtractorState).1
        = ((getExtractor (.error e) freshExtractorState).1, .error e)
    ∧ computeEmbedding later (getExtractor (.error e) freshExtractorState).1 text
        = ((getExtractor (.error e) freshExtractorState).1, .error e)
    ∧ computeQueryEmbedding later (getExtractor (.error e) freshExtractorState).1 q
        = ((getExtractor (.error e) freshExtractorState).1, .error e) :=
  ⟨rfl, rfl, rfl, rfl, rfl⟩

/-- C10: running initialization from the fresh module state either stores
the handle or stores the error, so `getDb` afterwards either returns the
handle or throws the stored init error — the fallback
"Database not initialized" branch is unreachable. -/
theorem getDb_total_after_init (setup : Except Err DbHandle) :
    getDb (initDatabase setup freshDbState).1
        = (match setup with
           | .ok h => .ok h
           | .error e => .error (.initError e))
    ∧ getDb (initDatabase setup freshDbState).1 ≠ .error .notInitDone := by
  cases setup with
  | ok h => exact ⟨rfl, by simp [getDb, initDatabase, freshDbState]⟩
  | error e => exact ⟨rfl, by simp [getDb, initDatabase, freshDbState]⟩

/-- C8 counterexample: with two reminder rows for note 1 fetched in
creation order, the aggregated view attaches the first row (created at
time 10), not the most recently created one (created at time 20). -/
theorem fetchNotes_reminder_not_most_recent :
    fetchNotes [plainRow] [] [remEarly, remLate] = [aggPlain]
    ∧ aggPlain.reminder = some remEarly
    ∧ remLate.noteId = 1 ∧ remEarly.createdAt < remLate.createdAt := by decide

/-- C8 (amended): each aggregated note carries at most one reminder,
namely the first row of the fetched reminders list whose noteId matches
(list order, not the most recently created). -/
theorem fetchNotes_reminder_first_match (ns : List NoteRow) (cs : List ContentItem)
    (rs : List ReminderRow) (a : Note) (ha : a ∈ fetchNotes ns cs rs) :
    a.reminder = (rs.filter (fun r => r.noteId == a.id)).head? := by
  obtain ⟨n, hn, rfl⟩ := List.mem_map.mp ha
  exact find_eq_head_filter (fun r => r.noteId == n.id) rs

/-- C8 witness: the aggregated note for `plainRow` carries the head of the
matching-reminder sublist. -/
theorem fetchNotes_reminder_first_match_witness :
    aggPlain.reminder = ([remEarly, remLate].filter (fun r => r.noteId == aggPlain.id)).head? :=
  fetchNotes_reminder_first_match [plainRow] [] [remEarly, remLate] aggPlain (by decide)
